import Mathlib

/-!
Verification of the rDTMF real-time DTMF decoder (`src/rDTMF.py`).

The development shallowly embeds the algorithmic core of the program:

* `DTMFDetector.detect_from_data` (lines 48-81) — the spectral detection
  pipeline.  The magnitude spectrum (`np.abs(np.fft.rfft(...))`, lines 52-54)
  is a floating-point Fourier transform; everything downstream of it is exact
  comparisons and arithmetic, so the pipeline is embedded as a computable
  function of the magnitude list over `ℚ` (`detectFromMags`), with the bin
  frequencies `np.fft.rfftfreq(n, d=1/44100)` embedded as `rfftfreq`.
* `scipy.signal.find_peaks(magnitudes, height=peak_height, distance=2)` —
  embedded by `findPeaks`: interior strict local maxima with plateau
  midpoints (`localMaxima`, mirroring scipy's `_local_maxima_1d` sweep),
  the height filter, then scipy's highest-priority-first distance pruning
  (`selectByPeakDistance`).
* `DTMFDetector.detect_dtmf` / `process_queue` (lines 38-46) — the FIFO
  queue and rate-limited tick, as a state machine over `DetectorState`;
  the `analyzed` field records the frames handed to `detect_from_data`.
* `AudioThread.audio_callback` (lines 152-164) — as a pure function from
  the mute flag (`stop_transition`) and the input block to its effects.
* `AudioVisualizer.update_bars` (lines 93-111) — over `ℝ`, with the real
  discrete Fourier transform embedded via `Complex.exp`.
* `MainWindow.set_sample_rate` / `set_timing` / `set_buffer_size` and
  `start_detection` (lines 436-446, 514-524) — the configuration flow.
-/

/-! ## The DTMF symbol table (lines 28-33), in Python dict insertion order -/

/-- The `dtmf_freqs` table of `DTMFDetector.__init__`: each symbol with its
(low, high) frequency pair, listed in the source's insertion order, which is
the iteration order of the detection loop. -/
def dtmfTable : List (Char × ℚ × ℚ) :=
  [('1', 697, 1209), ('2', 697, 1336), ('3', 697, 1477), ('A', 697, 1633),
   ('4', 770, 1209), ('5', 770, 1336), ('6', 770, 1477), ('B', 770, 1633),
   ('7', 852, 1209), ('8', 852, 1336), ('9', 852, 1477), ('C', 852, 1633),
   ('*', 941, 1209), ('0', 941, 1336), ('#', 941, 1477), ('D', 941, 1633)]

/-! ## `scipy.signal.find_peaks` with `height` and `distance` -/

/-- The `np.max` of a nonempty list (the code only applies it to nonempty
spectra; the `[]` case is an arbitrary total extension). -/
def npMaxQ : List ℚ → ℚ
  | [] => 0
  | h :: t => t.foldl max h

/-- One sweep of scipy's `_local_maxima_1d`: walk the samples keeping the
current index `i`, the previous value `prev`, and an open plateau candidate
`cand = some (s, v)` meaning the value rose strictly to `v` at index `s` and
has stayed equal to `v` since.  A strictly smaller sample closes the plateau
`[s, i-1]` and emits its midpoint `(s + (i-1)) / 2` (integer division), as
scipy does; a plateau still open at the end of the signal emits nothing. -/
def localMaximaGo : ℕ → Option (ℕ × ℚ) → ℚ → List ℚ → List ℕ
  | _, _, _, [] => []
  | i, some (s, v), _, w :: rest =>
    if w = v then localMaximaGo (i + 1) (some (s, v)) w rest
    else if w < v then (s + (i - 1)) / 2 :: localMaximaGo (i + 1) none w rest
    else localMaximaGo (i + 1) (some (i, w)) w rest
  | i, none, prev, w :: rest =>
    if prev < w then localMaximaGo (i + 1) (some (i, w)) w rest
    else localMaximaGo (i + 1) none w rest

/-- Indices of the interior local maxima of `x` (plateau midpoints), in
ascending order — scipy's `_local_maxima_1d`. -/
def localMaxima : List ℚ → List ℕ
  | [] => []
  | x0 :: rest => localMaximaGo 1 none x0 rest

/-- Indices `0, …, n-1` sorted by their value in `p` (ascending, stable) —
the `np.argsort(priority)` of scipy's `_select_by_peak_distance`. -/
def argsortAsc (p : List ℚ) : List ℕ :=
  List.insertionSort (fun a b => p.getD a 0 ≤ p.getD b 0) (List.range p.length)

/-- scipy's `_select_by_peak_distance`: visit peaks from highest to lowest
priority; a still-kept peak discards every other peak whose index lies
strictly closer than `dist`.  Returns the keep-flags, positionally aligned
with `peaks`. -/
def selectByPeakDistance (peaks : List ℕ) (priority : List ℚ) (dist : ℕ) : List Bool :=
  let n := peaks.length
  (argsortAsc priority).reverse.foldl
    (fun keep j =>
      if keep.getD j false then
        (List.range n).foldl
          (fun kp k =>
            let pk := peaks.getD k 0
            let pj := peaks.getD j 0
            if k ≠ j ∧ max pk pj - min pk pj < dist then kp.set k false else kp)
          keep
      else keep)
    (List.replicate n true)

/-- The `scipy.signal.find_peaks(x, height, distance)` call of line 57:
local maxima, then the height filter (`x[peak] ≥ height`), then the
distance pruning. -/
def findPeaks (x : List ℚ) (height : ℚ) (dist : ℕ) : List ℕ :=
  let mids := (localMaxima x).filter fun m => decide (height ≤ x.getD m 0)
  let keep := selectByPeakDistance mids (mids.map fun m => x.getD m 0) dist
  ((mids.zip keep).filter fun mk => mk.2).map fun mk => mk.1

/-! ## `detect_from_data` downstream of the FFT (lines 52-81) -/

/-- Line 53: `np.fft.rfftfreq(n, d=1/44100)` — the `n/2+1` bin frequencies
`k * 44100 / n`.  The sample rate is hardcoded to 44100 in the source,
independently of the configured stream rate. -/
def rfftfreq (n : ℕ) : List ℚ :=
  (List.range (n / 2 + 1)).map fun (k : ℕ) => (k : ℚ) * 44100 / (n : ℚ)

/-- Modelled from the spec's words (§4.2 step 1: bins "at resolution
`sampleRate/N`", i.e. bin `k` at frequency `k * sampleRate / n`), for
comparison with the code's `rfftfreq`. -/
def specRfftfreq (rate : ℚ) (n : ℕ) : List ℚ :=
  (List.range (n / 2 + 1)).map fun (k : ℕ) => (k : ℚ) * rate / (n : ℚ)

/-- Lines 56-61: the qualifying candidate frequencies of a frame of `n`
samples with magnitude spectrum `mags` — peaks found at height
`max(mags) * 0.68` with `distance=2`, kept when their magnitude exceeds 13,
mapped to their bin frequency, and kept when that lies in `[600, 1700]`. -/
def qualifyingFreqs (mags : List ℚ) (n : ℕ) : List ℚ :=
  let peakHeight := npMaxQ mags * (0.68 : ℚ)
  let peaks := findPeaks mags peakHeight 2
  let detected := (peaks.filter fun p => decide ((13 : ℚ) < mags.getD p 0)).map
    fun p => (rfftfreq n).getD p 0
  detected.filter fun f => decide ((600 : ℚ) ≤ f ∧ f ≤ (1700 : ℚ))

/-- Line 75: the Manhattan distance between a candidate pair and a table
entry's (low, high) frequencies. -/
def symDist (lo hi : ℚ) (p : ℚ × ℚ) : ℚ :=
  |p.1 - lo| + |p.2 - hi|

/-- Lines 68-69: adjacent pairs of the sorted candidate list. -/
def adjacentPairs (l : List ℚ) : List (ℚ × ℚ) :=
  l.zip l.tail

/-- One iteration of the inner loop of lines 73-78: update
`(best_match, min_distance)` with the pair `p` for symbol `sym`. -/
def scanStep (sym : Char) (lo hi : ℚ) (acc : Option Char × WithTop ℚ) (p : ℚ × ℚ) :
    Option Char × WithTop ℚ :=
  if ((symDist lo hi p : ℚ) : WithTop ℚ) < acc.2 then (some sym, ((symDist lo hi p : ℚ) : WithTop ℚ))
  else acc

/-- Lines 71-78: the full scan over the table (outer loop) and the candidate
pairs (inner loop), starting from `best_match = None`,
`min_distance = float('inf')` (here `⊤`). -/
def scanBest (table : List (Char × ℚ × ℚ)) (pairs : List (ℚ × ℚ)) :
    Option Char × WithTop ℚ :=
  table.foldl (fun acc e => pairs.foldl (scanStep e.1 e.2.1 e.2.2) acc) (none, ⊤)

/-- Lines 56-81 of `detect_from_data`, as a function of the magnitude
spectrum `mags` of a frame of `n` samples: `some c` exactly when the source
emits `dtmf_detected` with symbol `c`.  (Lines 48-54 — the empty-frame guard
and the floating-point rFFT producing `mags` — sit upstream of this
function.) -/
def detectFromMags (mags : List ℚ) (n : ℕ) : Option Char :=
  let detected := qualifyingFreqs mags n
  if detected.length < 2 then none
  else
    (scanBest dtmfTable
      (adjacentPairs (List.insertionSort (fun a b => a ≤ b) detected))).1

/-- The sorted adjacent candidate pairs a frame's spectrum produces —
the `possible_pairs` of line 67-69. -/
def pairsOf (mags : List ℚ) (n : ℕ) : List (ℚ × ℚ) :=
  adjacentPairs (List.insertionSort (fun a b => a ≤ b) (qualifyingFreqs mags n))

/-- The minimum Manhattan distance of a table entry to any candidate pair
(`⊤` when there are no pairs) — the best score symbol `(lo, hi)` can attain
in the loop of lines 73-78. -/
def minDistOf (lo hi : ℚ) (pairs : List (ℚ × ℚ)) : WithTop ℚ :=
  pairs.foldr (fun p m => min ((symDist lo hi p : ℚ) : WithTop ℚ) m) ⊤

/-! ## The detection queue and rate-limited tick (lines 34-46) -/

/-- The mutable state of `DTMFDetector` (lines 34-36), over an abstract
frame type `α`; `analyzed` instruments the model with the trace of frames
handed to `detect_from_data` by `process_queue`. -/
structure DetectorState (α : Type) where
  delay : ℚ
  last_detection_time : ℚ
  detection_queue : List α
  analyzed : List α
deriving DecidableEq

/-- Lines 38-39: `detect_dtmf` appends the frame to the queue. -/
def detect_dtmf {α : Type} (st : DetectorState α) (f : α) : DetectorState α :=
  { st with detection_queue := st.detection_queue ++ [f] }

/-- Lines 41-46: `process_queue` at time `now` pops and analyzes the oldest
frame and records `now` as the last detection time, provided
`now - last_detection_time ≥ delay` and the queue is nonempty; otherwise it
does nothing. -/
def process_queue {α : Type} (now : ℚ) (st : DetectorState α) : DetectorState α :=
  if st.delay ≤ now - st.last_detection_time ∧ st.detection_queue.isEmpty = false then
    { st with
        detection_queue := st.detection_queue.tail
        analyzed := st.analyzed ++ st.detection_queue.take 1
        last_detection_time := now }
  else st

/-- An operation on the detector: a producer enqueue or a timer tick. -/
inductive DetectorOp (α : Type) where
  | enqueue (f : α)
  | tick (now : ℚ)

/-- Apply one operation to the detector state. -/
def applyOp {α : Type} (st : DetectorState α) : DetectorOp α → DetectorState α
  | .enqueue f => detect_dtmf st f
  | .tick now => process_queue now st

/-- Run a sequence of operations. -/
def runOps {α : Type} (st : DetectorState α) (ops : List (DetectorOp α)) : DetectorState α :=
  ops.foldl applyOp st

/-- The frames enqueued by a sequence of operations, in arrival order. -/
def enqueuedTrace {α : Type} : List (DetectorOp α) → List α
  | [] => []
  | .enqueue f :: ops => f :: enqueuedTrace ops
  | .tick _ :: ops => enqueuedTrace ops

/-! ## The audio callback (lines 152-164) -/

/-- The observable effects of one `audio_callback` invocation: the output
buffer, and the frames handed to the visualizer (`update_bars`), to the
`audio_data_signal` listeners, and to the detector (`detect_dtmf`). -/
structure CallbackEffects where
  outdata : List ℚ
  meter_frames : List (List ℚ)
  signal_frames : List (List ℚ)
  detector_frames : List (List ℚ)
deriving DecidableEq

/-- Lines 152-164: with `stop_transition` (mute) set, the callback zero-fills
the output and passes a zero frame of the block's shape to the visualizer
only; otherwise it copies the input to the output and hands the captured
block to the signal, the visualizer, and the detector. -/
def audio_callback (stop_transition : Bool) (indata : List ℚ) : CallbackEffects :=
  if stop_transition then
    { outdata := List.replicate indata.length 0
      meter_frames := [List.replicate indata.length 0]
      signal_frames := []
      detector_frames := [] }
  else
    { outdata := indata
      meter_frames := [indata]
      signal_frames := [indata]
      detector_frames := [indata] }

/-! ## Configuration flow (lines 126-136, 436-446, 514-524) -/

/-- A Python runtime error raised by attribute lookup on an object that
lacks the attribute. -/
inductive PyError where
  | attributeError
deriving DecidableEq

/-- The configuration carried by a started `AudioThread` (lines 132-136):
buffer size 2048, sample rate 44100, and a fresh detector with delay 0.2. -/
structure AudioThreadState where
  sample_rate : ℚ
  buffer_size : ℕ
  delay : ℚ
deriving DecidableEq

/-- The hardcoded stream parameters of `AudioThread.__init__` (lines 133-135). -/
def audioThreadInit : AudioThreadState :=
  { sample_rate := 44100, buffer_size := 2048, delay := (0.2 : ℚ) }

/-- The configuration-relevant state of `MainWindow`: the current audio
thread, if any. -/
structure MainWindowState where
  audio_thread : Option AudioThreadState
deriving DecidableEq

/-- Lines 436-446: `start_detection` constructs a fresh `AudioThread` with
the hardcoded defaults; no previously entered configuration value reaches
it. -/
def start_detection (_w : MainWindowState) : MainWindowState :=
  { audio_thread := some audioThreadInit }

/-- Lines 514-516: `set_sample_rate` does nothing when no thread exists, and
otherwise calls `AudioThread.set_sample_rate` — a method `AudioThread` does
not define, so Python raises `AttributeError`. -/
def set_sample_rate (w : MainWindowState) (_v : ℚ) : Except PyError MainWindowState :=
  match w.audio_thread with
  | none => .ok w
  | some _ => .error .attributeError

/-- Lines 518-520: `set_timing`, same shape as `set_sample_rate`;
`AudioThread.set_delay` does not exist either. -/
def set_timing (w : MainWindowState) (_v : ℚ) : Except PyError MainWindowState :=
  match w.audio_thread with
  | none => .ok w
  | some _ => .error .attributeError

/-- Lines 522-524: `set_buffer_size`, same shape; `AudioThread.set_buffer_size`
does not exist either. -/
def set_buffer_size (w : MainWindowState) (_v : ℚ) : Except PyError MainWindowState :=
  match w.audio_thread with
  | none => .ok w
  | some _ => .error .attributeError

/-! ## `AudioVisualizer.update_bars` (lines 93-111), over exact reals

The visualizer recomputes an rFFT of the frame (line 99); here the real
discrete Fourier transform is embedded exactly over `ℝ`/`ℂ`, so these
definitions are noncomputable — the transcendental part of the code is the
one place exact evaluation is impossible, and the lemmas below only ever
evaluate it on frames where the sums collapse. -/

/-- The `k`-th coefficient of `np.fft.rfft(x)`:
`Σ_i x i · exp(-2πi·k·i / len x)`. -/
noncomputable def rfftCoeff (x : List ℝ) (k : ℕ) : ℂ :=
  ∑ i ∈ Finset.range x.length,
    ((x.getD i 0 : ℝ) : ℂ) *
      Complex.exp (-(2 * (Real.pi : ℂ) * Complex.I * (k : ℂ) * (i : ℂ)) / (x.length : ℂ))

/-- Line 99-100: the magnitude spectrum `np.abs(np.fft.rfft(x))` — the
`len x / 2 + 1` coefficient magnitudes. -/
noncomputable def rfftMags (x : List ℝ) : List ℝ :=
  (List.range (x.length / 2 + 1)).map fun (k : ℕ) => Complex.abs (rfftCoeff x k)

/-- The `np.max` of a nonempty real list (the `[]` case is an arbitrary total
extension; the code only reaches it on nonempty spectra). -/
noncomputable def npMaxR : List ℝ → ℝ
  | [] => 0
  | h :: t => t.foldl max h

/-- Line 106: `np.interp(v, (0, 100), (0, h))` — linear interpolation with
clamping at both ends. -/
noncomputable def npInterp (v h : ℝ) : ℝ :=
  if v ≤ 0 then 0 else if 100 ≤ v then h else v * h / 100

/-- Lines 94-106: the `target_level` computed by `update_bars` for a frame
and a render height `h` (the widget's `self.height()`): `0` for an empty
frame, otherwise the maximum spectral magnitude — replaced by `1` when it is
`0` (line 104-105) — interpolated into `[0, h]`. -/
noncomputable def update_bars_target (audio : List ℝ) (h : ℝ) : ℝ :=
  if audio.length = 0 then 0
  else npInterp (if npMaxR (rfftMags audio) = 0 then 1 else npMaxR (rfftMags audio)) h

/-- Line 109: the exponential-moving-average update of `smoothed_level`.
`alpha` models `self.smoothing_factor` (0.25 in the source). -/
noncomputable def update_bars_smoothed (audio : List ℝ) (h alpha s : ℝ) : ℝ :=
  alpha * update_bars_target audio h + (1 - alpha) * s

/-- The smoothed level after `k` repeated `update_bars` calls with the same
frame, starting from `s0`. -/
noncomputable def level_seq (audio : List ℝ) (h alpha s0 : ℝ) : ℕ → ℝ
  | 0 => s0
  | k + 1 => update_bars_smoothed audio h alpha (level_seq audio h alpha s0 k)

/-- The scan of lines 71-78 over an arbitrary remaining table suffix and an
arbitrary accumulator (generalization of `scanBest` for induction). -/
def scanFold (pairs : List (ℚ × ℚ)) (ts : List (Char × ℚ × ℚ))
    (acc : Option Char × WithTop ℚ) : Option Char × WithTop ℚ :=
  ts.foldl (fun acc e => pairs.foldl (scanStep e.1 e.2.1 e.2.2) acc) acc

/-! # Theorems -/

/-! ## Evaluation and characterization lemmas for the detection scan -/

theorem rfftfreq_getElem (n k : ℕ) (hk : k < n / 2 + 1) :
    (rfftfreq n)[k]? = some ((k : ℚ) * 44100 / (n : ℚ)) := by
  unfold rfftfreq
  rw [List.getElem?_map, List.getElem?_range hk]
  simp

theorem scanStep_top (sym : Char) (lo hi : ℚ) (b : Option Char) (p : ℚ × ℚ) :
    scanStep sym lo hi (b, ⊤) p = (some sym, ((symDist lo hi p : ℚ) : WithTop ℚ)) := by
  simp only [scanStep]
  rw [if_pos (WithTop.coe_lt_top _)]

theorem scanStep_coe_lt (sym : Char) (lo hi q : ℚ) (b : Option Char) (p : ℚ × ℚ)
    (h : symDist lo hi p < q) :
    scanStep sym lo hi (b, ((q : ℚ) : WithTop ℚ)) p =
      (some sym, ((symDist lo hi p : ℚ) : WithTop ℚ)) := by
  simp only [scanStep]
  rw [if_pos (WithTop.coe_lt_coe.mpr h)]

theorem scanStep_coe_ge (sym : Char) (lo hi q : ℚ) (b : Option Char) (p : ℚ × ℚ)
    (h : ¬ symDist lo hi p < q) :
    scanStep sym lo hi (b, ((q : ℚ) : WithTop ℚ)) p = (b, ((q : ℚ) : WithTop ℚ)) := by
  simp only [scanStep]
  rw [if_neg (fun hc => h (WithTop.coe_lt_coe.mp hc))]

theorem minDistOf_nil (lo hi : ℚ) : minDistOf lo hi [] = ⊤ := rfl

theorem minDistOf_cons (lo hi : ℚ) (p : ℚ × ℚ) (ps : List (ℚ × ℚ)) :
    minDistOf lo hi (p :: ps) =
      min ((symDist lo hi p : ℚ) : WithTop ℚ) (minDistOf lo hi ps) := rfl

theorem minDistOf_lt_top (lo hi : ℚ) (ps : List (ℚ × ℚ)) (hps : ps ≠ []) :
    minDistOf lo hi ps < ⊤ := by
  cases ps with
  | nil => exact absurd rfl hps
  | cons p ps =>
      rw [minDistOf_cons]
      exact lt_of_le_of_lt (min_le_left _ _) (WithTop.coe_lt_top _)

theorem minDistOf_le_mem (lo hi : ℚ) {p : ℚ × ℚ} {ps : List (ℚ × ℚ)} (hp : p ∈ ps) :
    minDistOf lo hi ps ≤ ((symDist lo hi p : ℚ) : WithTop ℚ) := by
  induction ps with
  | nil => cases hp
  | cons q ps ih =>
      rw [minDistOf_cons]
      rcases List.mem_cons.mp hp with h | h
      · rw [h]
        exact min_le_left _ _
      · exact le_trans (min_le_right _ _) (ih h)

theorem innerFold_eq (sym : Char) (lo hi : ℚ) (ps : List (ℚ × ℚ)) :
    ∀ (b : Option Char) (m : WithTop ℚ),
      ps.foldl (scanStep sym lo hi) (b, m) =
        if minDistOf lo hi ps < m then (some sym, min m (minDistOf lo hi ps)) else (b, m) := by
  induction ps with
  | nil =>
      intro b m
      rw [List.foldl_nil, minDistOf_nil, if_neg (not_top_lt)]
  | cons p ps ih =>
      intro b m
      rw [List.foldl_cons, minDistOf_cons]
      by_cases hd : ((symDist lo hi p : ℚ) : WithTop ℚ) < m
      · rw [show scanStep sym lo hi (b, m) p
              = (some sym, ((symDist lo hi p : ℚ) : WithTop ℚ)) from by
            simp only [scanStep]; rw [if_pos hd]]
        rw [ih]
        by_cases hM : minDistOf lo hi ps < ((symDist lo hi p : ℚ) : WithTop ℚ)
        · rw [if_pos hM, min_eq_right (le_of_lt hM), if_pos (hM.trans hd),
            min_eq_right (le_of_lt (hM.trans hd))]
        · rw [if_neg hM, min_eq_left (not_lt.mp hM), if_pos hd,
            min_eq_right (le_of_lt hd)]
      · rw [show scanStep sym lo hi (b, m) p = (b, m) from by
            simp only [scanStep]; rw [if_neg hd]]
        rw [ih]
        have hmd : m ≤ ((symDist lo hi p : ℚ) : WithTop ℚ) := not_lt.mp hd
        by_cases hM : minDistOf lo hi ps < m
        · rw [if_pos hM, if_pos (lt_of_le_of_lt (min_le_right _ _) hM),
            ← min_assoc, min_eq_left hmd]
        · rw [if_neg hM,
            if_neg (fun hc => (min_lt_iff.mp hc).elim (fun hc1 => hd hc1) (fun hc2 => hM hc2))]

theorem scanFold_isSome (pairs : List (ℚ × ℚ)) (ts : List (Char × ℚ × ℚ)) :
    ∀ acc : Option Char × WithTop ℚ, acc.1.isSome → (scanFold pairs ts acc).1.isSome := by
  induction ts with
  | nil => intro acc h; exact h
  | cons e ts ih =>
      intro acc h
      show (scanFold pairs ts (pairs.foldl (scanStep e.1 e.2.1 e.2.2) acc)).1.isSome
      apply ih
      rw [show acc = (acc.1, acc.2) from rfl, innerFold_eq]
      by_cases hM : minDistOf e.2.1 e.2.2 pairs < acc.2
      · rw [if_pos hM]; rfl
      · rw [if_neg hM]; exact h

theorem scanFold_spec (pairs : List (ℚ × ℚ)) (ts : List (Char × ℚ × ℚ)) :
    ∀ (b : Option Char) (m : WithTop ℚ),
      (scanFold pairs ts (b, m) = (b, m) ∧
        ∀ e ∈ ts, m ≤ minDistOf e.2.1 e.2.2 pairs) ∨
      (∃ (i : ℕ) (e : Char × ℚ × ℚ), ts[i]? = some e ∧
        (scanFold pairs ts (b, m)).1 = some e.1 ∧
        (scanFold pairs ts (b, m)).2 = minDistOf e.2.1 e.2.2 pairs ∧
        (scanFold pairs ts (b, m)).2 < m ∧
        (∀ j, j < i → ∀ e' : Char × ℚ × ℚ, ts[j]? = some e' →
          (scanFold pairs ts (b, m)).2 < minDistOf e'.2.1 e'.2.2 pairs) ∧
        (∀ e' ∈ ts, (scanFold pairs ts (b, m)).2 ≤ minDistOf e'.2.1 e'.2.2 pairs)) := by
  induction ts with
  | nil =>
      intro b m
      left
      exact ⟨rfl, fun e he => absurd he (List.not_mem_nil e)⟩
  | cons e ts ih =>
      intro b m
      have hstep : scanFold pairs (e :: ts) (b, m)
          = scanFold pairs ts (pairs.foldl (scanStep e.1 e.2.1 e.2.2) (b, m)) := rfl
      rw [innerFold_eq] at hstep
      by_cases hM : minDistOf e.2.1 e.2.2 pairs < m
      · rw [if_pos hM, min_eq_right (le_of_lt hM)] at hstep
        rcases ih (some e.1) (minDistOf e.2.1 e.2.2 pairs) with
          ⟨hres, hall⟩ | ⟨i, e'', hget, h1, h2, hlt, hear, hallr⟩
        · right
          refine ⟨0, e, List.getElem?_cons_zero, ?_, ?_, ?_, ?_, ?_⟩
          · rw [hstep, hres]
          · rw [hstep, hres]
          · rw [hstep, hres]; exact hM
          · intro j hj e' hje'; omega
          · intro e' he'
            rw [hstep, hres]
            rcases List.mem_cons.mp he' with heq | hmem
            · subst heq; exact le_refl _
            · exact hall e' hmem
        · right
          refine ⟨i + 1, e'', ?_, ?_, ?_, ?_, ?_, ?_⟩
          · rw [List.getElem?_cons_succ]; exact hget
          · rw [hstep]; exact h1
          · rw [hstep]; exact h2
          · rw [hstep]; exact hlt.trans hM
          · intro j hj e' hje'
            rw [hstep]
            cases j with
            | zero =>
                rw [List.getElem?_cons_zero] at hje'
                injection hje' with heq
                rw [← heq]
                exact hlt
            | succ j' =>
                rw [List.getElem?_cons_succ] at hje'
                exact hear j' (by omega) e' hje'
          · intro e' he'
            rw [hstep]
            rcases List.mem_cons.mp he' with heq | hmem
            · subst heq; exact le_of_lt hlt
            · exact hallr e' hmem
      · rw [if_neg hM] at hstep
        have hme : m ≤ minDistOf e.2.1 e.2.2 pairs := not_lt.mp hM
        rcases ih b m with ⟨hres, hall⟩ | ⟨i, e'', hget, h1, h2, hlt, hear, hallr⟩
        · left
          refine ⟨by rw [hstep, hres], ?_⟩
          intro e' he'
          rcases List.mem_cons.mp he' with heq | hmem
          · subst heq; exact hme
          · exact hall e' hmem
        · right
          refine ⟨i + 1, e'', ?_, ?_, ?_, ?_, ?_, ?_⟩
          · rw [List.getElem?_cons_succ]; exact hget
          · rw [hstep]; exact h1
          · rw [hstep]; exact h2
          · rw [hstep]; exact hlt
          · intro j hj e' hje'
            rw [hstep]
            cases j with
            | zero =>
                rw [List.getElem?_cons_zero] at hje'
                injection hje' with heq
                rw [← heq]
                exact lt_of_lt_of_le hlt hme
            | succ j' =>
                rw [List.getElem?_cons_succ] at hje'
                exact hear j' (by omega) e' hje'
          · intro e' he'
            rw [hstep]
            rcases List.mem_cons.mp he' with heq | hmem
            · subst heq; exact le_of_lt (lt_of_lt_of_le hlt hme)
            · exact hallr e' hmem

theorem detectFromMags_eq (mags : List ℚ) (n : ℕ) :
    detectFromMags mags n =
      if (qualifyingFreqs mags n).length < 2 then none
      else (scanFold (pairsOf mags n) dtmfTable (none, ⊤)).1 := rfl

theorem scanBest_table_isSome (pairs : List (ℚ × ℚ)) (hps : pairs ≠ []) :
    (scanFold pairs dtmfTable (none, ⊤)).1.isSome := by
  rcases scanFold_spec pairs dtmfTable none ⊤ with ⟨_, hall⟩ | ⟨i, e, hget, h1, _⟩
  · exfalso
    have hmem : ('1', (697 : ℚ), (1209 : ℚ)) ∈ dtmfTable := by
      unfold dtmfTable
      exact List.mem_cons_self _ _
    have h := hall ('1', (697 : ℚ), (1209 : ℚ)) hmem
    exact absurd (lt_of_lt_of_le (minDistOf_lt_top 697 1209 pairs hps) h) (lt_irrefl _)
  · rw [h1]; rfl

theorem qualifyingFreqs_eval :
    qualifyingFreqs [0, 0, 100, 0, 100, 0] 128 = [11025/16, 11025/8] := by
  norm_num [qualifyingFreqs, findPeaks, localMaxima, localMaximaGo, npMaxQ,
    selectByPeakDistance, argsortAsc, List.insertionSort, List.orderedInsert,
    List.range_succ, List.zip, List.zipWith, rfftfreq_getElem]

theorem scanBest_eval :
    scanBest dtmfTable [((11025 : ℚ)/16, (11025 : ℚ)/8)]
      = (some '2', ((801/16 : ℚ) : WithTop ℚ)) := by
  simp only [scanBest, dtmfTable, List.foldl_cons, List.foldl_nil]
  rw [scanStep_top]
  rw [show (symDist 697 1209 ((11025 : ℚ)/16, (11025 : ℚ)/8) : ℚ) = 2833/16 by
    norm_num [symDist, abs_of_nonneg]]
  rw [scanStep_coe_lt _ _ _ _ _ _ (by norm_num [symDist, abs_of_nonneg])]
  rw [show (symDist 697 1336 ((11025 : ℚ)/16, (11025 : ℚ)/8) : ℚ) = 801/16 by
    norm_num [symDist, abs_of_nonneg]]
  rw [scanStep_coe_ge _ _ _ _ _ _ (by norm_num [symDist, abs_of_nonneg])]
  rw [scanStep_coe_ge _ _ _ _ _ _ (by norm_num [symDist, abs_of_nonneg])]
  rw [scanStep_coe_ge _ _ _ _ _ _ (by norm_num [symDist, abs_of_nonneg])]
  rw [scanStep_coe_ge _ _ _ _ _ _ (by norm_num [symDist, abs_of_nonneg])]
  rw [scanStep_coe_ge _ _ _ _ _ _ (by norm_num [symDist, abs_of_nonneg])]
  rw [scanStep_coe_ge _ _ _ _ _ _ (by norm_num [symDist, abs_of_nonneg])]
  rw [scanStep_coe_ge _ _ _ _ _ _ (by norm_num [symDist, abs_of_nonneg])]
  rw [scanStep_coe_ge _ _ _ _ _ _ (by norm_num [symDist, abs_of_nonneg])]
  rw [scanStep_coe_ge _ _ _ _ _ _ (by norm_num [symDist, abs_of_nonneg])]
  rw [scanStep_coe_ge _ _ _ _ _ _ (by norm_num [symDist, abs_of_nonneg])]
  rw [scanStep_coe_ge _ _ _ _ _ _ (by norm_num [symDist, abs_of_nonneg])]
  rw [scanStep_coe_ge _ _ _ _ _ _ (by norm_num [symDist, abs_of_nonneg])]
  rw [scanStep_coe_ge _ _ _ _ _ _ (by norm_num [symDist, abs_of_nonneg])]
  rw [scanStep_coe_ge _ _ _ _ _ _ (by norm_num [symDist, abs_of_nonneg])]

theorem detect_eval : detectFromMags [0, 0, 100, 0, 100, 0] 128 = some '2' := by
  simp only [detectFromMags, qualifyingFreqs_eval]
  norm_num [adjacentPairs, List.insertionSort, List.orderedInsert, List.zip, List.zipWith,
    scanBest_eval]

/-! ## Claim C2 -/

/-- C2: for every (nonempty-frame) magnitude spectrum, `detect_from_data`
emits a symbol if and only if at least two qualifying frequencies remain
after the peak/magnitude/range filtering; when at least two remain, a
symbol is emitted unconditionally — there is no maximum-distance acceptance
threshold. -/
theorem detect_emits_iff_two_qualifying (mags : List ℚ) (n : ℕ) (hm : mags ≠ []) :
    (detectFromMags mags n).isSome ↔ 2 ≤ (qualifyingFreqs mags n).length := by
  rw [detectFromMags_eq]
  by_cases hlen : (qualifyingFreqs mags n).length < 2
  · rw [if_pos hlen]
    constructor
    · intro hs; exact absurd hs (by simp)
    · intro hge; omega
  · rw [if_neg hlen]
    constructor
    · intro _; omega
    · intro _
      apply scanBest_table_isSome
      unfold pairsOf adjacentPairs
      intro hnil
      have hlength := congrArg List.length hnil
      rw [List.length_zip, List.length_tail, List.length_insertionSort] at hlength
      simp only [List.length_nil] at hlength
      omega

theorem detect_emits_iff_two_qualifying_witness :
    ([1, 2, 1] : List ℚ) ≠ [] ∧
      ((detectFromMags [1, 2, 1] 4).isSome ↔ 2 ≤ (qualifyingFreqs [1, 2, 1] 4).length) :=
  ⟨by simp, detect_emits_iff_two_qualifying [1, 2, 1] 4 (by simp)⟩

/-! ## Claim C3 -/

/-- C3: whenever `detect_from_data` emits a symbol `c`, some table entry
`(c, lo, hi)` at index `i` realizes the globally minimal Manhattan distance:
its best score over the adjacent candidate pairs is at most every other
entry's best score, hence at most the distance of every (entry, pair)
combination; and every entry strictly earlier in the table iteration order
has a strictly larger best score — so on exact ties the first symbol in the
fixed table order is the one emitted, deterministically. -/
theorem detect_best_is_min_manhattan (mags : List ℚ) (n : ℕ) (c : Char)
    (hdet : detectFromMags mags n = some c) :
    ∃ (i : ℕ) (lo hi : ℚ), dtmfTable[i]? = some (c, lo, hi) ∧
      (∀ e ∈ dtmfTable,
        minDistOf lo hi (pairsOf mags n) ≤ minDistOf e.2.1 e.2.2 (pairsOf mags n)) ∧
      (∀ e ∈ dtmfTable, ∀ p ∈ pairsOf mags n,
        minDistOf lo hi (pairsOf mags n) ≤ ((symDist e.2.1 e.2.2 p : ℚ) : WithTop ℚ)) ∧
      (∀ j, j < i → ∀ e : Char × ℚ × ℚ, dtmfTable[j]? = some e →
        minDistOf lo hi (pairsOf mags n) < minDistOf e.2.1 e.2.2 (pairsOf mags n)) := by
  rw [detectFromMags_eq] at hdet
  by_cases hlen : (qualifyingFreqs mags n).length < 2
  · rw [if_pos hlen] at hdet
    exact Option.noConfusion hdet
  · rw [if_neg hlen] at hdet
    rcases scanFold_spec (pairsOf mags n) dtmfTable none ⊤ with
      ⟨hres, _⟩ | ⟨i, e, hget, h1, h2, _, hear, hall⟩
    · rw [hres] at hdet
      exact Option.noConfusion hdet
    · have hc : e.1 = c := by
        rw [h1] at hdet
        injection hdet
      refine ⟨i, e.2.1, e.2.2, ?_, ?_, ?_, ?_⟩
      · rw [← hc]; exact hget
      · intro e' he'
        rw [← h2]
        exact hall e' he'
      · intro e' he' p hp
        rw [← h2]
        exact le_trans (hall e' he') (minDistOf_le_mem e'.2.1 e'.2.2 hp)
      · intro j hj e' hje'
        rw [← h2]
        exact hear j hj e' hje'

theorem detect_best_is_min_manhattan_witness :
    detectFromMags [0, 0, 100, 0, 100, 0] 128 = some '2' ∧
    (∃ (i : ℕ) (lo hi : ℚ), dtmfTable[i]? = some ('2', lo, hi) ∧
      (∀ e ∈ dtmfTable,
        minDistOf lo hi (pairsOf [0, 0, 100, 0, 100, 0] 128)
          ≤ minDistOf e.2.1 e.2.2 (pairsOf [0, 0, 100, 0, 100, 0] 128)) ∧
      (∀ e ∈ dtmfTable, ∀ p ∈ pairsOf [0, 0, 100, 0, 100, 0] 128,
        minDistOf lo hi (pairsOf [0, 0, 100, 0, 100, 0] 128)
          ≤ ((symDist e.2.1 e.2.2 p : ℚ) : WithTop ℚ)) ∧
      (∀ j, j < i → ∀ e : Char × ℚ × ℚ, dtmfTable[j]? = some e →
        minDistOf lo hi (pairsOf [0, 0, 100, 0, 100, 0] 128)
          < minDistOf e.2.1 e.2.2 (pairsOf [0, 0, 100, 0, 100, 0] 128))) :=
  ⟨detect_eval, detect_best_is_min_manhattan [0, 0, 100, 0, 100, 0] 128 '2' detect_eval⟩

/-! ## Claim C4 -/

/-- C4: with the queue initially empty and the first tick happening at least
`delay` after the last analysis (as required by the claim's own general
rule), enqueuing two frames back-to-back and ticking analyzes only the first
frame; a further tick at least `delay` later analyzes the second.  In
general, a tick at time `now'` pops and analyzes the oldest frame and sets
`last_detection_time := now'` exactly when `now' - last_detection_time ≥
delay` and the queue is nonempty, and is a no-op otherwise. -/
theorem tick_rate_limited {α : Type} (st st' : DetectorState α) (f1 f2 : α)
    (now1 now2 now' : ℚ)
    (hq : st.detection_queue = [])
    (h1 : st.delay ≤ now1 - st.last_detection_time)
    (h2 : st.delay ≤ now2 - now1) :
    (process_queue now1 (detect_dtmf (detect_dtmf st f1) f2)).analyzed
        = st.analyzed ++ [f1] ∧
    (process_queue now1 (detect_dtmf (detect_dtmf st f1) f2)).detection_queue = [f2] ∧
    (process_queue now1 (detect_dtmf (detect_dtmf st f1) f2)).last_detection_time = now1 ∧
    (process_queue now2 (process_queue now1 (detect_dtmf (detect_dtmf st f1) f2))).analyzed
        = st.analyzed ++ [f1, f2] ∧
    (process_queue now2 (process_queue now1
        (detect_dtmf (detect_dtmf st f1) f2))).detection_queue = [] ∧
    (process_queue now2 (process_queue now1
        (detect_dtmf (detect_dtmf st f1) f2))).last_detection_time = now2 ∧
    (st'.delay ≤ now' - st'.last_detection_time ∧ st'.detection_queue.isEmpty = false →
      process_queue now' st' =
        { st' with
            detection_queue := st'.detection_queue.tail
            analyzed := st'.analyzed ++ st'.detection_queue.take 1
            last_detection_time := now' }) ∧
    (¬ (st'.delay ≤ now' - st'.last_detection_time ∧ st'.detection_queue.isEmpty = false) →
      process_queue now' st' = st') := by
  have equeue : detect_dtmf (detect_dtmf st f1) f2
      = { st with detection_queue := [f1, f2] } := by
    simp [detect_dtmf, hq]
  have e1 : process_queue now1 { st with detection_queue := [f1, f2] }
      = { st with
            detection_queue := [f2]
            analyzed := st.analyzed ++ [f1]
            last_detection_time := now1 } := by
    unfold process_queue
    rw [if_pos ⟨h1, rfl⟩]
    rfl
  have e2 : process_queue now2
        { st with
            detection_queue := [f2]
            analyzed := st.analyzed ++ [f1]
            last_detection_time := now1 }
      = { st with
            detection_queue := []
            analyzed := (st.analyzed ++ [f1]) ++ [f2]
            last_detection_time := now2 } := by
    unfold process_queue
    rw [if_pos ⟨h2, rfl⟩]
    rfl
  rw [equeue, e1, e2]
  refine ⟨rfl, rfl, rfl, by simp, rfl, rfl, ?_, ?_⟩
  · intro hc
    unfold process_queue
    rw [if_pos hc]
  · intro hc
    unfold process_queue
    rw [if_neg hc]

theorem tick_rate_limited_witness :
    (⟨1/5, 0, [], []⟩ : DetectorState ℕ).detection_queue = [] ∧
    (⟨1/5, 0, [], []⟩ : DetectorState ℕ).delay
      ≤ 1/5 - (⟨1/5, 0, [], []⟩ : DetectorState ℕ).last_detection_time ∧
    (⟨1/5, 0, [], []⟩ : DetectorState ℕ).delay ≤ 2/5 - 1/5 ∧
    ((process_queue (1/5)
        (detect_dtmf (detect_dtmf (⟨1/5, 0, [], []⟩ : DetectorState ℕ) 1) 2)).analyzed
        = (⟨1/5, 0, [], []⟩ : DetectorState ℕ).analyzed ++ [1] ∧
      (process_queue (1/5)
        (detect_dtmf (detect_dtmf (⟨1/5, 0, [], []⟩ : DetectorState ℕ) 1) 2)).detection_queue
        = [2] ∧
      (process_queue (1/5)
        (detect_dtmf (detect_dtmf (⟨1/5, 0, [], []⟩ : DetectorState ℕ) 1) 2)).last_detection_time
        = 1/5 ∧
      (process_queue (2/5) (process_queue (1/5)
          (detect_dtmf (detect_dtmf (⟨1/5, 0, [], []⟩ : DetectorState ℕ) 1) 2))).analyzed
        = (⟨1/5, 0, [], []⟩ : DetectorState ℕ).analyzed ++ [1, 2] ∧
      (process_queue (2/5) (process_queue (1/5)
          (detect_dtmf (detect_dtmf (⟨1/5, 0, [], []⟩ : DetectorState ℕ) 1) 2))).detection_queue
        = [] ∧
      (process_queue (2/5) (process_queue (1/5)
          (detect_dtmf (detect_dtmf (⟨1/5, 0, [], []⟩ : DetectorState ℕ) 1) 2))).last_detection_time
        = 2/5 ∧
      ((⟨1/5, 0, [9], [4]⟩ : DetectorState ℕ).delay
          ≤ 1/5 - (⟨1/5, 0, [9], [4]⟩ : DetectorState ℕ).last_detection_time ∧
        (⟨1/5, 0, [9], [4]⟩ : DetectorState ℕ).detection_queue.isEmpty = false →
        process_queue (1/5) (⟨1/5, 0, [9], [4]⟩ : DetectorState ℕ) =
          { (⟨1/5, 0, [9], [4]⟩ : DetectorState ℕ) with
              detection_queue := (⟨1/5, 0, [9], [4]⟩ : DetectorState ℕ).detection_queue.tail
              analyzed := (⟨1/5, 0, [9], [4]⟩ : DetectorState ℕ).analyzed
                ++ (⟨1/5, 0, [9], [4]⟩ : DetectorState ℕ).detection_queue.take 1
              last_detection_time := 1/5 }) ∧
      (¬ ((⟨1/5, 0, [9], [4]⟩ : DetectorState ℕ).delay
          ≤ 1/5 - (⟨1/5, 0, [9], [4]⟩ : DetectorState ℕ).last_detection_time ∧
        (⟨1/5, 0, [9], [4]⟩ : DetectorState ℕ).detection_queue.isEmpty = false) →
        process_queue (1/5) (⟨1/5, 0, [9], [4]⟩ : DetectorState ℕ)
          = (⟨1/5, 0, [9], [4]⟩ : DetectorState ℕ))) :=
  ⟨rfl, by norm_num, by norm_num,
    tick_rate_limited (⟨1/5, 0, [], []⟩ : DetectorState ℕ)
      (⟨1/5, 0, [9], [4]⟩ : DetectorState ℕ) 1 2 (1/5) (2/5) (1/5)
      rfl (by norm_num) (by norm_num)⟩

/-! ## Claim C5 -/

theorem runOps_fifo_aux {α : Type} (ops : List (DetectorOp α)) :
    ∀ st : DetectorState α,
      (runOps st ops).analyzed ++ (runOps st ops).detection_queue
        = st.analyzed ++ st.detection_queue ++ enqueuedTrace ops := by
  induction ops with
  | nil => intro st; simp [runOps, enqueuedTrace]
  | cons op ops ih =>
      intro st
      have hrun : runOps st (op :: ops) = runOps (applyOp st op) ops := rfl
      rw [hrun, ih]
      cases op with
      | enqueue f =>
          simp [applyOp, detect_dtmf, enqueuedTrace]
      | tick now =>
          simp only [applyOp, enqueuedTrace]
          unfold process_queue
          by_cases hc : st.delay ≤ now - st.last_detection_time ∧
              st.detection_queue.isEmpty = false
          · rw [if_pos hc]
            cases hq : st.detection_queue with
            | nil => rw [hq] at hc; simp at hc
            | cons a q' => simp
          · rw [if_neg hc]

/-- C5: over every sequence of enqueue and tick operations starting from a
fresh detector, the analyzed trace followed by the still-queued frames is
exactly the enqueued trace in arrival order — so frames are analyzed
strictly in FIFO arrival order, no enqueued frame is analyzed twice, and no
frame is ever dropped. -/
theorem fifo_no_drop_no_reanalysis {α : Type} (ops : List (DetectorOp α))
    (st : DetectorState α)
    (ha : st.analyzed = []) (hq : st.detection_queue = []) :
    (runOps st ops).analyzed ++ (runOps st ops).detection_queue = enqueuedTrace ops := by
  rw [runOps_fifo_aux ops st, ha, hq]
  simp

theorem fifo_no_drop_no_reanalysis_witness :
    (⟨1/5, 0, [], []⟩ : DetectorState ℕ).analyzed = [] ∧
    (⟨1/5, 0, [], []⟩ : DetectorState ℕ).detection_queue = [] ∧
    ((runOps (⟨1/5, 0, [], []⟩ : DetectorState ℕ)
        [.enqueue 5, .tick 1, .enqueue 7, .tick 2]).analyzed ++
      (runOps (⟨1/5, 0, [], []⟩ : DetectorState ℕ)
        [.enqueue 5, .tick 1, .enqueue 7, .tick 2]).detection_queue
      = enqueuedTrace [.enqueue 5, .tick 1, .enqueue 7, .tick 2]) :=
  ⟨rfl, rfl, fifo_no_drop_no_reanalysis _ _ rfl rfl⟩

/-! ## Claim C6 -/

/-- C6 counterexample: the claim asserts bin `k` of a frame of `n` samples
sits at frequency `k * sampleRate / n` for every configured sample rate; but
the code's `rfftfreq` hardcodes 44100 (line 53), so at configured rate 22050
and `n = 2`, bin 1 is reported at 22050 Hz where the claim requires
11025 Hz. -/
theorem bin_freqs_not_rate_parametric :
    rfftfreq 2 = [0, 22050] ∧ specRfftfreq 22050 2 = [0, 11025] ∧
      rfftfreq 2 ≠ specRfftfreq 22050 2 := by
  refine ⟨?_, ?_, ?_⟩ <;> norm_num [rfftfreq, specRfftfreq, List.range_succ]

/-- C6 amended: `detect_from_data` computes `n/2 + 1` frequency bins but at
the fixed resolution `44100 / n` — bin `k` at `k * 44100 / n` — regardless
of the configured sample rate: the bin frequencies agree with the spec's
`k * sampleRate / n` formula exactly when the rate is 44100, and depend on
the sample sequence's length alone. -/
theorem bin_freqs_hardcoded_44100 (n : ℕ) :
    (rfftfreq n).length = n / 2 + 1 ∧ rfftfreq n = specRfftfreq 44100 n := by
  constructor
  · simp [rfftfreq]
  · rfl

/-! ## Claim C7 -/

/-- C7 counterexample: in the muted (`stop_transition`) branch the captured
block is NOT handed to both consumers: on input block `[1]` the detector
receives nothing and the level meter receives the zero frame `[0]`, not the
captured block `[1]` (the output is correctly zero-filled). -/
theorem callback_muted_counterexample :
    (audio_callback true [1]).outdata = [0] ∧
    (audio_callback true [1]).detector_frames = [] ∧
    (audio_callback true [1]).detector_frames ≠ [[1]] ∧
    (audio_callback true [1]).meter_frames = [[0]] ∧
    (audio_callback true [1]).meter_frames ≠ [[1]] := by
  refine ⟨rfl, rfl, by simp [audio_callback], rfl, ?_⟩
  norm_num [audio_callback, List.replicate]

/-- C7 amended: when not muted the callback writes the input block to the
output and hands the captured block to the signal listeners, the level
meter, and the detector; when muted it zero-fills the output, hands a
zero-filled frame of the block's length to the level meter only, and hands
nothing to the signal listeners or the detector. -/
theorem callback_effects (indata : List ℚ) :
    audio_callback false indata
      = { outdata := indata
          meter_frames := [indata]
          signal_frames := [indata]
          detector_frames := [indata] } ∧
    audio_callback true indata
      = { outdata := List.replicate indata.length 0
          meter_frames := [List.replicate indata.length 0]
          signal_frames := []
          detector_frames := [] } :=
  ⟨rfl, rfl⟩

/-! ## Claim C10 -/

/-- C10: the configuration setters do not record anything.  With no active
stream each setter silently discards its value and a subsequently started
stream runs with the hardcoded defaults (44100 Hz, block 2048, delay 0.2 s)
— in particular a stream started after `set_sample_rate 22050` still runs
at 44100 ≠ 22050; and with an active stream each setter raises
`AttributeError`, because `AudioThread` defines no `set_sample_rate`,
`set_delay`, or `set_buffer_size` method. -/
theorem config_setters_lost :
    set_sample_rate ⟨none⟩ 22050 = .ok ⟨none⟩ ∧
    set_timing ⟨none⟩ 1 = .ok ⟨none⟩ ∧
    set_buffer_size ⟨none⟩ 4096 = .ok ⟨none⟩ ∧
    (start_detection ⟨none⟩).audio_thread = some ⟨44100, 2048, 0.2⟩ ∧
    (44100 : ℚ) ≠ 22050 ∧
    set_sample_rate (start_detection ⟨none⟩) 22050 = .error .attributeError ∧
    set_timing (start_detection ⟨none⟩) 1 = .error .attributeError ∧
    set_buffer_size (start_detection ⟨none⟩) 4096 = .error .attributeError :=
  ⟨rfl, rfl, rfl, rfl, by norm_num, rfl, rfl, rfl⟩

/-! ## Zero-frame evaluation of the level meter -/

theorem getD_replicate_zero (n i : ℕ) : (List.replicate n (0 : ℝ)).getD i 0 = 0 := by
  induction n generalizing i with
  | zero => rfl
  | succ n ih =>
      cases i with
      | zero => rfl
      | succ j => exact ih j

theorem rfftCoeff_replicate_zero (n k : ℕ) :
    rfftCoeff (List.replicate n (0 : ℝ)) k = 0 := by
  unfold rfftCoeff
  apply Finset.sum_eq_zero
  intro i _
  rw [getD_replicate_zero]
  simp

theorem rfftMags_replicate_zero (n : ℕ) :
    rfftMags (List.replicate n (0 : ℝ)) = List.replicate (n / 2 + 1) 0 := by
  unfold rfftMags
  rw [List.length_replicate]
  have hmem : ∀ b ∈ (List.range (n / 2 + 1)).map
      (fun (k : ℕ) => Complex.abs (rfftCoeff (List.replicate n (0 : ℝ)) k)), b = (0 : ℝ) := by
    intro b hb
    rcases List.mem_map.mp hb with ⟨k, _, hk⟩
    rw [← hk, rfftCoeff_replicate_zero]
    simp
  have hrep := List.eq_replicate_of_mem hmem
  rwa [List.length_map, List.length_range] at hrep

theorem foldl_max_replicate_zero (m : ℕ) : (List.replicate m (0 : ℝ)).foldl max 0 = 0 := by
  induction m with
  | zero => rfl
  | succ m ih =>
      show (List.replicate m (0 : ℝ)).foldl max (max 0 0) = 0
      rw [max_self]
      exact ih

theorem npMaxR_replicate_zero (m : ℕ) : npMaxR (List.replicate m (0 : ℝ)) = 0 := by
  cases m with
  | zero => rfl
  | succ m => exact foldl_max_replicate_zero m

theorem target_replicate_zero (n : ℕ) (hn : n ≠ 0) (h : ℝ) :
    update_bars_target (List.replicate n 0) h = h / 100 := by
  unfold update_bars_target
  rw [if_neg (by simp [hn])]
  rw [rfftMags_replicate_zero, npMaxR_replicate_zero, if_pos rfl]
  unfold npInterp
  rw [if_neg (by norm_num), if_neg (by norm_num)]
  norm_num

/-! ## Claim C8 -/

/-- C8 counterexample: the claim says an all-zero (silent) frame yields
smoothing target 0; but the zero-max guard of lines 104-105 replaces the
zero maximum with 1 before interpolation, so the non-empty all-zero frame of
4 samples at render height 200 yields target 2, not 0. -/
theorem zero_frame_target_counterexample :
    update_bars_target (List.replicate 4 0) 200 = 2 ∧ (2 : ℝ) ≠ 0 := by
  constructor
  · rw [target_replicate_zero 4 (by norm_num) 200]
    norm_num
  · norm_num

/-- C8 amended: an empty frame yields target 0; a non-empty frame whose
maximum spectral magnitude is zero (in particular an all-zero frame, whose
rFFT magnitudes all vanish) yields target `renderHeight / 100` because the
zero-max guard substitutes 1 before interpolation; a non-empty frame with
nonzero maximum magnitude yields the maximum mapped linearly from [0, 100]
into [0, renderHeight] with clamping at both ends; and for nonnegative
render heights the target always lies within [0, renderHeight]. -/
theorem update_bars_target_spec (audio : List ℝ) (h : ℝ) (hh : 0 ≤ h) :
    (audio.length = 0 → update_bars_target audio h = 0) ∧
    (audio.length ≠ 0 → npMaxR (rfftMags audio) = 0 →
      update_bars_target audio h = h / 100) ∧
    (audio.length ≠ 0 → npMaxR (rfftMags audio) ≠ 0 →
      update_bars_target audio h = npInterp (npMaxR (rfftMags audio)) h) ∧
    0 ≤ update_bars_target audio h ∧ update_bars_target audio h ≤ h := by
  have hinterp : ∀ v : ℝ, 0 ≤ npInterp v h ∧ npInterp v h ≤ h := by
    intro v
    unfold npInterp
    split_ifs with hv1 hv2
    · exact ⟨le_refl 0, hh⟩
    · exact ⟨hh, le_refl h⟩
    · constructor
      · exact div_nonneg (mul_nonneg (le_of_lt (not_le.mp hv1)) hh) (by norm_num)
      · nlinarith [not_le.mp hv1, not_le.mp hv2]
  refine ⟨?_, ?_, ?_, ?_, ?_⟩
  · intro he
    unfold update_bars_target
    rw [if_pos he]
  · intro hne hmax
    unfold update_bars_target
    rw [if_neg hne, if_pos hmax]
    unfold npInterp
    rw [if_neg (by norm_num), if_neg (by norm_num)]
    norm_num
  · intro hne hmax
    unfold update_bars_target
    rw [if_neg hne, if_neg hmax]
  · unfold update_bars_target
    by_cases h0 : audio.length = 0
    · rw [if_pos h0]
    · rw [if_neg h0]
      exact (hinterp _).1
  · unfold update_bars_target
    by_cases h0 : audio.length = 0
    · rw [if_pos h0]
      exact hh
    · rw [if_neg h0]
      exact (hinterp _).2

theorem update_bars_target_spec_witness :
    (0 : ℝ) ≤ 200 ∧
    ((([] : List ℝ).length = 0 → update_bars_target [] 200 = 0) ∧
      (([] : List ℝ).length ≠ 0 → npMaxR (rfftMags []) = 0 →
        update_bars_target [] 200 = 200 / 100) ∧
      (([] : List ℝ).length ≠ 0 → npMaxR (rfftMags []) ≠ 0 →
        update_bars_target [] 200 = npInterp (npMaxR (rfftMags [])) 200) ∧
      0 ≤ update_bars_target [] 200 ∧ update_bars_target [] 200 ≤ 200) :=
  ⟨by norm_num, update_bars_target_spec [] 200 (by norm_num)⟩

/-! ## Claim C9 -/

theorem level_seq_step_zero_frame (n : ℕ) (hn : n ≠ 0) (h alpha s0 : ℝ) (k : ℕ) :
    level_seq (List.replicate n 0) h alpha s0 (k + 1) - h / 100
      = (1 - alpha) * (level_seq (List.replicate n 0) h alpha s0 k - h / 100) := by
  show update_bars_smoothed (List.replicate n 0) h alpha
      (level_seq (List.replicate n 0) h alpha s0 k) - h / 100 = _
  unfold update_bars_smoothed
  rw [target_replicate_zero n hn h]
  ring

theorem level_seq_closed_form (n : ℕ) (hn : n ≠ 0) (h alpha s0 : ℝ) :
    ∀ k, level_seq (List.replicate n 0) h alpha s0 k - h / 100
      = (1 - alpha) ^ k * (s0 - h / 100) := by
  intro k
  induction k with
  | zero => simp [level_seq]
  | succ k ih =>
      rw [level_seq_step_zero_frame n hn, ih, pow_succ]
      ring

/-- C9 counterexample: starting from smoothed level 1 with the source's
smoothing factor 0.25 and render height 200, a single zero-frame update
moves the level to 5/4 — strictly farther from 0, because the zero-frame
target is 200/100 = 2, not 0.  So repeated zero-frame updates do not drive
the level monotonically toward 0. -/
theorem zero_frame_ema_counterexample :
    level_seq (List.replicate 4 0) 200 (1/4) 1 1 = 5/4 ∧
      ¬ |level_seq (List.replicate 4 0) 200 (1/4) 1 1 - 0| ≤ |(1 : ℝ) - 0| := by
  have he : level_seq (List.replicate 4 0) 200 (1/4) 1 1 = 5/4 := by
    simp only [level_seq]
    unfold update_bars_smoothed
    rw [target_replicate_zero 4 (by norm_num) 200]
    norm_num
  refine ⟨he, ?_⟩
  rw [he]
  rw [abs_of_nonneg (by norm_num : (0 : ℝ) ≤ 5/4 - 0),
    abs_of_nonneg (by norm_num : (0 : ℝ) ≤ (1 : ℝ) - 0)]
  norm_num

/-- C9 amended: for every nonempty zero frame, render height `h`, starting
level `s0` and `alpha ∈ (0,1)`, repeated `update_bars` calls drive the
smoothed level monotonically toward the zero-frame target `h/100` (not 0)
with no overshoot: each step contracts the distance to `h/100` by the
factor `1 - alpha`, the level stays on its starting side of `h/100` forever,
and the sequence converges to `h/100`.  (With `h = 0` this is convergence
to 0, as the original claim states.) -/
theorem zero_frame_ema_spec (n : ℕ) (h alpha s0 : ℝ)
    (hn : n ≠ 0) (ha0 : 0 < alpha) (ha1 : alpha < 1) :
    (∀ k, level_seq (List.replicate n 0) h alpha s0 (k + 1) - h / 100
        = (1 - alpha) * (level_seq (List.replicate n 0) h alpha s0 k - h / 100)) ∧
    (∀ k, level_seq (List.replicate n 0) h alpha s0 k - h / 100
        = (1 - alpha) ^ k * (s0 - h / 100)) ∧
    (∀ k, |level_seq (List.replicate n 0) h alpha s0 (k + 1) - h / 100|
        ≤ |level_seq (List.replicate n 0) h alpha s0 k - h / 100|) ∧
    (∀ k, (h / 100 ≤ s0 → h / 100 ≤ level_seq (List.replicate n 0) h alpha s0 k) ∧
          (s0 ≤ h / 100 → level_seq (List.replicate n 0) h alpha s0 k ≤ h / 100)) ∧
    Filter.Tendsto (level_seq (List.replicate n 0) h alpha s0)
      Filter.atTop (nhds (h / 100)) := by
  have h1a : 0 ≤ 1 - alpha := by linarith
  have h1b : 1 - alpha < 1 := by linarith
  refine ⟨level_seq_step_zero_frame n hn h alpha s0,
    level_seq_closed_form n hn h alpha s0, ?_, ?_, ?_⟩
  · intro k
    rw [level_seq_step_zero_frame n hn, abs_mul, abs_of_nonneg h1a]
    exact mul_le_of_le_one_left (abs_nonneg _) (le_of_lt h1b)
  · intro k
    have hcf := level_seq_closed_form n hn h alpha s0 k
    constructor
    · intro hs
      nlinarith [pow_nonneg h1a k]
    · intro hs
      nlinarith [pow_nonneg h1a k]
  · have hconv : Filter.Tendsto
        (fun k : ℕ => h / 100 + (1 - alpha) ^ k * (s0 - h / 100))
        Filter.atTop (nhds (h / 100 + 0 * (s0 - h / 100))) :=
      Filter.Tendsto.const_add _
        ((tendsto_pow_atTop_nhds_zero_of_lt_one h1a h1b).mul_const _)
    rw [show h / 100 + 0 * (s0 - h / 100) = h / 100 by ring] at hconv
    apply hconv.congr
    intro k
    have hcf := level_seq_closed_form n hn h alpha s0 k
    linarith

theorem zero_frame_ema_spec_witness :
    (1 : ℕ) ≠ 0 ∧ (0 : ℝ) < 1/2 ∧ (1/2 : ℝ) < 1 ∧
    ((∀ k, level_seq (List.replicate 1 0) 200 (1/2) 7 (k + 1) - 200 / 100
        = (1 - 1/2) * (level_seq (List.replicate 1 0) 200 (1/2) 7 k - 200 / 100)) ∧
      (∀ k, level_seq (List.replicate 1 0) 200 (1/2) 7 k - 200 / 100
        = (1 - 1/2) ^ k * (7 - 200 / 100)) ∧
      (∀ k, |level_seq (List.replicate 1 0) 200 (1/2) 7 (k + 1) - 200 / 100|
        ≤ |level_seq (List.replicate 1 0) 200 (1/2) 7 k - 200 / 100|) ∧
      (∀ k, ((200 : ℝ) / 100 ≤ 7 → 200 / 100 ≤ level_seq (List.replicate 1 0) 200 (1/2) 7 k) ∧
          ((7 : ℝ) ≤ 200 / 100 → level_seq (List.replicate 1 0) 200 (1/2) 7 k ≤ 200 / 100)) ∧
      Filter.Tendsto (level_seq (List.replicate 1 0) 200 (1/2) 7)
        Filter.atTop (nhds (200 / 100))) :=
  ⟨by norm_num, by norm_num, by norm_num,
    zero_frame_ema_spec 1 200 (1/2) 7 (by norm_num) (by norm_num) (by norm_num)⟩
